import Mathlib

/-!
Verification of the hint-label generation algorithm and the hint-session
state machine of `qutebrowser/browser/hints.py` (class `HintManager`).

Conventions of the embedding:

* Hint strings are `List Char`; the configured charset (`config.get("hints",
  "chars")`) is a `chars : List Char`.
* `needed = math.ceil(math.log(len(elems), len(chars)))` (hints.py line 181)
  is an IEEE-double computation through the platform's `log`; it is not
  shallow-embeddable, so the generator takes the program-computed value as an
  explicit parameter `needed` (see `hintStrings`).  The exact ceiling
  logarithm `ceilLog` (proved equal to Mathlib's `Nat.clog`) is kept only as
  the value the *spec's* formula `ceil(log_K(N))` denotes; the float result
  can exceed it (observed in CPython: `math.log(125, 5) =
  3.0000000000000004`, so `needed = 4` while `ceil(log_5 125) = 3`).
  All integer arithmetic is exact (`//` is `Nat` division, `math.floor` on a
  nonnegative quotient is `Nat` division as well).
* Recursions are written with an explicit fuel argument (structural, hence
  kernel-computable) together with unfolding lemmas that recover the loop
  structure of the Python code.
-/

namespace Hints

/-- Fuel-based helper for `ceilLog`; mirrors the recursion
`clog b m = clog b ((m + b - 1) / b) + 1` for `1 < b`, `1 < m`. -/
def ceilLogAux (b : Nat) : Nat → Nat → Nat
  | 0, _ => 0
  | fuel + 1, m =>
    if 1 < b ∧ 1 < m then ceilLogAux b fuel ((m + b - 1) / b) + 1 else 0

/-- Exact ceiling logarithm — the value the *spec's* formula `ceil(log_K(N))`
denotes (least `d` with `N ≤ K^d`; proved equal to `Nat.clog` below).  This
is deliberately NOT a model of the program's line 181, which computes
`math.ceil(math.log(m, b))` in floating point and can return a larger value
(e.g. 4 instead of 3 at `m = 125`, `b = 5`); the program's value enters the
generator as the explicit `needed` parameter instead. -/
def ceilLog (b m : Nat) : Nat := ceilLogAux b m m

/-- Fuel-based helper for `natDigitsMSB`: one step of the do-while loop of
`_number_to_hint_str` (lines 243-249), which prepends `n % b` and continues
with `(n - n % b) / b = n / b` while the quotient is positive. -/
def natDigitsAux (b : Nat) : Nat → Nat → List Nat
  | 0, n => [n]
  | fuel + 1, n =>
    if 1 < b ∧ b ≤ n then natDigitsAux b fuel (n / b) ++ [n % b] else [n]

/-- Base-`b` digits of `n`, most significant first, at least one digit —
exactly the list built by the do-while loop of `_number_to_hint_str`. -/
def natDigitsMSB (b n : Nat) : List Nat := natDigitsAux b n n

/-- `_number_to_hint_str(number, chars, digits)` (lines 223-253): digits of
`number` in base `len(chars)` mapped through the charset, left-padded with
`chars[0]` up to length `digits`. -/
def numberToHintStr (number : Nat) (chars : List Char) (digits : Nat) : List Char :=
  let hintstr := (natDigitsMSB chars.length number).map (fun r => chars.getD r 'a')
  List.replicate (digits - hintstr.length) (chars.getD 0 'a') ++ hintstr

/-- `_shuffle_hints(hints, length)` (lines 200-221): distribute `hints` into
`length` buckets by index modulo `length` (in order), then concatenate the
buckets. -/
def shuffleHints (hints : List (List Char)) (length : Nat) : List (List Char) :=
  ((List.range length).map
    (fun j => (hints.enum.filter (fun p => p.1 % length == j)).map Prod.snd)).flatten

/-- `short_count` in `_hint_strings` (lines 184-185):
`floor((len(chars) ** needed - len(elems)) / len(chars))`, with `needed` the
digit count the program computed at line 181 (passed as a parameter, see
`hintStrings`).  Faithful to the Python value whenever `n ≤ K^needed`, which
holds for every value the float computation has been observed to produce
(below that threshold the Python quotient would be negative while `Nat`
subtraction truncates; the theorems carry `n ≤ K^needed` as a
hypothesis). -/
def shortCountOf (n needed : Nat) (chars : List Char) : Nat :=
  (chars.length ^ needed - n) / chars.length

/-- `long_count` in `_hint_strings` (line 186). -/
def longCountOf (n needed : Nat) (chars : List Char) : Nat :=
  n - shortCountOf n needed chars

/-- The short strings appended by the `if needed > 1` loop (lines 190-192). -/
def shortsOf (n needed : Nat) (chars : List Char) : List (List Char) :=
  if 1 < needed then
    (List.range (shortCountOf n needed chars)).map
      (fun i => numberToHintStr i chars (needed - 1))
  else []

/-- The long strings appended by the `range(start, start + long_count)` loop
(lines 194-196), where `start = short_count * len(chars)`. -/
def longsOf (n needed : Nat) (chars : List Char) : List (List Char) :=
  (List.range' (shortCountOf n needed chars * chars.length)
    (longCountOf n needed chars)).map
    (fun i => numberToHintStr i chars needed)

/-- The list `strings` of `_hint_strings` just before the final
`_shuffle_hints` call. -/
def hintStringsPre (n needed : Nat) (chars : List Char) : List (List Char) :=
  shortsOf n needed chars ++ longsOf n needed chars

/-- `_hint_strings(elems)` (lines 166-198) as a function of
`n = len(elems)`, the digit count `needed` that line 181 computed for this
run (`math.ceil(math.log(n, len(chars)))` in IEEE doubles — a libm
computation that is not shallow-embeddable and is therefore a parameter),
and the configured charset.  Absent rounding error `needed` equals
`ceilLog chars.length n`; the observed float divergences (CPython) give
`needed = ceilLog + 1`, exactly at perfect powers `n = K^e` (e.g. `n = 125`,
`K = 5` gives `needed = 4`).  In both cases `n ≤ K^needed` and
`shortCountOf n needed chars ≤ n` hold, which is what the theorems
assume. -/
def hintStrings (n needed : Nat) (chars : List Char) : List (List Char) :=
  shuffleHints (hintStringsPre n needed chars) chars.length

/-- Inverse base-`K` digit extraction: decode a hint string back to a number,
taking each character's position in the charset as a digit value, most
significant first (the spec's round-trip decoding). -/
def hintStrToNumber (chars : List Char) (s : List Char) : Nat :=
  s.foldl (fun acc c => acc * chars.length + chars.indexOf c) 0

/-- The spec's `d = ceil(log_K(N))`, "with `d = 1` when `N = 1`". -/
def labelDigits (n k : Nat) : Nat := if n = 1 then 1 else ceilLog k n

/-- Positions (0-based) in `labels` of the labels whose first character is
`c`. -/
def leadingPositions (labels : List (List Char)) (c : Char) : List Nat :=
  (labels.enum.filter (fun p => p.2.head? == some c)).map Prod.fst

/-! ## The hint session (class `HintManager`)

The session state consists of the four instance attributes set in
`HintManager.__init__` (`_elems`, `_frame`, `_target`, `_baseurl`), plus
`uiMode`, which models the modal state held by the external mode manager: it
records the argument of the most recent `set_mode` signal emission ("hint" on
a successful `start`, "normal" on `stop`), i.e. the spec's Active/Inactive
session state.  Qt/DOM side effects (drawing labels, mouse events, clipboard,
messages) are modelled as an emitted list of `Action`s; exceptions that the
Python code raises (`KeyError`, `AttributeError`) are modelled with
`Except`. -/

/-- A page element, as far as the session observes it: its `href` attribute
(`none` models a missing attribute) and whether the geometry checks in
`start` (lines 367-375) classify it as visible. -/
structure Elem where
  href : Option String
  visible : Bool
deriving DecidableEq, Repr

/-- The `QWebFrame`, reduced to the elements `findAllElements` would
return. -/
structure Frame where
  elems : List Elem
deriving DecidableEq, Repr

/-- Decidable equality of `Except` results (not provided by the core
library), so that concrete runs of the modelled methods can be checked by
`decide`. -/
instance {ε α : Type} [DecidableEq ε] [DecidableEq α] : DecidableEq (Except ε α) :=
  fun a b =>
    match a, b with
    | .error e, .error e' =>
      if h : e = e' then .isTrue (h ▸ rfl)
      else .isFalse (fun hc => h (Except.error.inj hc))
    | .ok x, .ok y =>
      if h : x = y then .isTrue (h ▸ rfl)
      else .isFalse (fun hc => h (Except.ok.inj hc))
    | .error _, .ok _ => .isFalse (fun hc => Except.noConfusion hc)
    | .ok _, .error _ => .isFalse (fun hc => Except.noConfusion hc)

/-- Python exceptions the modelled methods can raise. -/
inductive HintError where
  /-- `KeyError` from `self._elems[keystr]` in `fire` — the spec's
  `UnknownLabelError`. -/
  | unknownLabel
  /-- `KeyError` from the `SELECTORS[mode]` / `texts[target]` lookups in
  `start`. -/
  | keyError
  /-- `AttributeError` from calling a method on `None` (`stop` with
  `_frame is None`). -/
  | attributeError
deriving DecidableEq, Repr

/-- Observable side effects emitted to collaborators. -/
inductive Action where
  /-- `_click(elem, target)`: synthesized mouse events plus
  `set_open_target`. -/
  | click (elem : Elem) (openTarget : String)
  /-- `_yank(link, sel)`: clipboard/primary-selection write plus
  `message.info`. -/
  | yank (link : String) (primarySel : Bool)
  /-- `_set_cmd_text(link, command)`: sets the commandline text. -/
  | setCmdText (command : String) (link : String)
  /-- `message.error(text)`. -/
  | msgError (text : String)
  /-- `message.text(text)`. -/
  | msgText (text : String)
  /-- `message.clear()`. -/
  | msgClear
  /-- `set_mode.emit(mode)`. -/
  | setMode (mode : String)
  /-- `hint_strings_updated.emit(strings)`. -/
  | hintStringsUpdated (strings : List (List Char))
  /-- `_draw_label(elem, string)` for the given hint string. -/
  | drawLabel (string : List Char)
  /-- `elems.label.removeFromDocument()` for the given hint string. -/
  | removeLabel (string : List Char)
  /-- `elems.label.setInnerXml(...)`: highlight the first `matched`
  characters of the label. -/
  | highlightLabel (string : List Char) (matched : Nat)
deriving DecidableEq, Repr

/-- The mutable state of a `HintManager` (the attributes of `__init__`,
lines 160-164) plus the externally-held input mode (see the section
comment).  `elems` is the insertion-ordered `_elems` dict keystring →
element; the `label` component of `ElemTuple` is an external DOM node,
modelled by the emitted `Action`s instead. -/
structure HintSession where
  elems : List (List Char × Elem)
  frame : Option Frame
  target : Option String
  baseurl : Option String
  uiMode : String
deriving DecidableEq, Repr

/-- The state after `HintManager.__init__`. -/
def HintSession.initial : HintSession :=
  { elems := [], frame := none, target := none, baseurl := none,
    uiMode := "normal" }

/-- Python `dict` lookup on an insertion-ordered association list. -/
def dictLookup {β : Type} (d : List (List Char × β)) (k : List Char) : Option β :=
  match d with
  | [] => none
  | (k', v) :: rest => if k' = k then some v else dictLookup rest k

/-- Python `dict` assignment `d[k] = v`: overwrite in place when the key is
present, else append. -/
def dictInsert {β : Type} (d : List (List Char × β)) (k : List Char) (v : β) :
    List (List Char × β) :=
  match d with
  | [] => [(k, v)]
  | (k', v') :: rest =>
    if k' = k then (k, v) :: rest else (k', v') :: dictInsert rest k v

/-- String-keyed dict lookup (for the `texts` dict literal in `start`). -/
def strLookup {β : Type} (d : List (String × β)) (k : String) : Option β :=
  match d with
  | [] => none
  | (k', v) :: rest => if k' = k then some v else strLookup rest k

/-- The session is in the spec's Active state: hint mode was entered and a
frame is held. -/
def Active (s : HintSession) : Prop := s.uiMode = "hint" ∧ s.frame ≠ none

instance (s : HintSession) : Decidable (Active s) :=
  inferInstanceAs (Decidable (s.uiMode = "hint" ∧ s.frame ≠ none))

/-- The session is in the spec's Inactive state. -/
def Inactive (s : HintSession) : Prop := s.uiMode = "normal" ∧ s.frame = none

instance (s : HintSession) : Decidable (Inactive s) :=
  inferInstanceAs (Decidable (s.uiMode = "normal" ∧ s.frame = none))

/-- `_resolve_link(elem)` (lines 328-343): `None` when the `href` attribute
is missing or empty (`elem.attribute('href')` returns `""` for a missing
attribute, and `if not link` catches both); relative-URL resolution against
`_baseurl` is external URL arithmetic, modelled as the identity. -/
def resolveLink (elem : Elem) : Option String :=
  match elem.href with
  | none => none
  | some l => if l = "" then none else some l

/-- The targets that require a resolvable link (`fire`, line 434). -/
def requireLink : List String :=
  ["yank", "yank_primary", "cmd", "cmd_tab", "cmd_bgtab"]

/-- `stop()` (lines 400-414): remove all labels, disconnect from the frame
(an `AttributeError` when `_frame` is `None`), clear `_elems` and `_target`
and `_frame`, and leave hint mode.  `_baseurl` is not cleared. -/
def stop (s : HintSession) : Except HintError (HintSession × List Action) :=
  match s.frame with
  | none => .error .attributeError
  | some _ =>
    .ok ({ s with elems := [], target := none, frame := none,
                  uiMode := "normal" },
      (s.elems.map (fun p => Action.removeLabel p.1)) ++
        [Action.setMode "normal", Action.msgClear])

/-- `handle_partial_key(keystr)` (lines 416-429): keep exactly the entries
whose keystring starts with `keystr` (highlighting the matched part on their
labels), delete the rest (removing their labels). -/
def handlePartialKey (s : HintSession) (keystr : List Char) :
    HintSession × List Action :=
  ({ s with elems := s.elems.filter (fun p => keystr.isPrefixOf p.1) },
    (s.elems.filter (fun p => keystr.isPrefixOf p.1)).map
        (fun p => Action.highlightLabel p.1 keystr.length) ++
      (s.elems.filter (fun p => !(keystr.isPrefixOf p.1))).map
        (fun p => Action.removeLabel p.1))

/-- The dispatch chain of `fire` (lines 441-454) followed by the final
`stop` unless the target is "rapid" (lines 455-456).  In the Python code the
`link` local is only assigned when the target is in `require_link`, so the
`.getD ""` defaults are unreachable in the branches that use them. -/
def fireDispatch (s : HintSession) (elem : Elem) (link : Option String) :
    Except HintError (HintSession × List Action) :=
  let acts :=
    if s.target = some "normal" ∨ s.target = some "tab" ∨
        s.target = some "bgtab" then
      [Action.click elem (s.target.getD "")]
    else if s.target = some "rapid" then
      [Action.click elem "bgtab"]
    else if s.target = some "yank" ∨ s.target = some "yank_primary" then
      [Action.yank (link.getD "") (decide (s.target = some "yank_primary"))]
    else if s.target = some "cmd" then
      [Action.setCmdText "open" (link.getD "")]
    else if s.target = some "cmd_tab" then
      [Action.setCmdText "tabopen" (link.getD "")]
    else if s.target = some "cmd_bgtab" then
      [Action.setCmdText "backtabopen" (link.getD "")]
    else []
  if s.target ≠ some "rapid" then
    match stop s with
    | .error e => .error e
    | .ok (s2, acts2) => .ok (s2, acts ++ acts2)
  else
    .ok (s, acts)

/-- `fire(keystr)` (lines 431-456): look up the element (`KeyError` when the
keystring is not mapped), and when the target requires a link, return early
with only a message when the link does not resolve. -/
def fire (s : HintSession) (keystr : List Char) :
    Except HintError (HintSession × List Action) :=
  match dictLookup s.elems keystr with
  | none => .error .unknownLabel
  | some elem =>
    if (s.target.map (fun t => decide (t ∈ requireLink))).getD false then
      match resolveLink elem with
      | none => .ok (s, [Action.msgError "No suitable link found for this element."])
      | some link => fireDispatch s elem (some link)
    else
      fireDispatch s elem none

/-- The keys of `SELECTORS` (lines 118-128); the CSS selector strings are
external, only the `SELECTORS[mode]` key lookup matters. -/
def selectorModes : List String := ["all", "links", "images", "editable", "url"]

/-- `FILTERS` (lines 130-133): mode "links" keeps only elements with an
`href` attribute whose scheme is not `javascript`; other modes keep
everything. -/
def filterFunc (mode : String) (e : Elem) : Bool :=
  if mode = "links" then
    match e.href with
    | none => false
    | some l => !(l.startsWith "javascript:")
  else true

/-- The `texts` dict of `start` (lines 380-390). -/
def texts : List (String × String) :=
  [("normal", "Follow hint..."), ("tab", "Follow hint in new tab..."),
    ("bgtab", "Follow hint in background tab..."),
    ("yank", "Yank hint to clipboard..."),
    ("yank_primary", "Yank hint to primary selection..."),
    ("cmd", "Set hint in commandline..."),
    ("cmd_tab", "Set hint in commandline as new tab..."),
    ("cmd_bgtab", "Set hint in commandline as background tab..."),
    ("rapid", "Follow hint (rapid mode)...")]

/-- `start(frame, baseurl, mode, target)` (lines 345-398), with the
configured charset and the digit count `needed` that `_hint_strings` would
compute at line 181 for this run (a floating-point value passed through as a
parameter, see `hintStrings`) made explicit.  `_target`, `_baseurl` and
`_frame` are assigned (lines 358-360) before the visible-element check
(line 377), so they are overwritten even on the "No elements found."
path — a path on which `needed` is never consulted. -/
def start (s : HintSession) (frame : Frame) (baseurl : String) (mode : String)
    (target : String) (needed : Nat) (chars : List Char) :
    Except HintError (HintSession × List Action) :=
  let s1 := { s with target := some target, baseurl := some baseurl,
                     frame := some frame }
  if mode ∈ selectorModes then
    let visible := frame.elems.filter (fun e => filterFunc mode e && e.visible)
    if visible = [] then
      .ok (s1, [Action.msgError "No elements found."])
    else
      match strLookup texts target with
      | none => .error .keyError
      | some txt =>
        let strings := hintStrings visible.length needed chars
        .ok ({ s1 with
            elems := (strings.zip visible).foldl
              (fun d p => dictInsert d p.1 p.2) s1.elems,
            uiMode := "hint" },
          [Action.msgText txt] ++ strings.map Action.drawLabel ++
            [Action.hintStringsUpdated strings, Action.setMode "hint"])
  else
    .error .keyError

/-- The state `stop` leaves behind on success (lines 410-413 applied to
`s`). -/
def stopped (s : HintSession) : HintSession :=
  { s with elems := [], target := none, frame := none, uiMode := "normal" }

/-- The state after the field assignments at the top of `start`
(lines 358-360). -/
def startFields (s : HintSession) (frame : Frame) (baseurl target : String) :
    HintSession :=
  { s with target := some target, baseurl := some baseurl, frame := some frame }

/-- The nine target modes accepted by `start` (the keys of its `texts`
dict). -/
def validTargets : List String :=
  ["normal", "tab", "bgtab", "yank", "yank_primary", "cmd", "cmd_tab",
    "cmd_bgtab", "rapid"]

/-- The action that `fire` dispatches for target mode `t` on `elem` whose
resolved link is `link` — the spec's "resolve the target's action per
mode". -/
def firedAction (t : String) (elem : Elem) (link : Option String) : Action :=
  if t = "rapid" then Action.click elem "bgtab"
  else if t = "yank" ∨ t = "yank_primary" then
    Action.yank (link.getD "") (decide (t = "yank_primary"))
  else if t = "cmd" then Action.setCmdText "open" (link.getD "")
  else if t = "cmd_tab" then Action.setCmdText "tabopen" (link.getD "")
  else if t = "cmd_bgtab" then Action.setCmdText "backtabopen" (link.getD "")
  else Action.click elem t

/-! ### Concrete fixtures used by witnesses and counterexamples -/

/-- An element carrying a resolvable link. -/
def linkElem : Elem := { href := some "http://e/", visible := true }

/-- An element with no `href` attribute. -/
def noHrefElem : Elem := { href := none, visible := true }

/-- A frame with no elements. -/
def emptyFrame : Frame := { elems := [] }

/-- An Active session in "yank" mode whose single hint covers an element
with no link. -/
def yankSession : HintSession :=
  { elems := [(['a', 'a'], noHrefElem)], frame := some emptyFrame,
    target := some "yank", baseurl := some "u", uiMode := "hint" }

/-- An Active session in "rapid" mode with three hints. -/
def rapidSession : HintSession :=
  { elems := [(['a', 'a'], linkElem), (['a', 'b'], linkElem),
      (['b', 'a'], linkElem)],
    frame := some emptyFrame, target := some "rapid", baseurl := some "u",
    uiMode := "hint" }

/-- An Active session in "normal" mode with one hint. -/
def normalSession : HintSession :=
  { elems := [(['a', 'a'], linkElem)], frame := some emptyFrame,
    target := some "normal", baseurl := some "u", uiMode := "hint" }

/-! ### Basic facts about `ceilLog` and `natDigitsMSB` -/

theorem ceilLogAux_of_le_one {b f m : Nat} (hm : m ≤ 1) : ceilLogAux b f m = 0 := by
  cases f with
  | zero => rfl
  | succ f => simp only [ceilLogAux]; rw [if_neg]; omega

theorem ceilLogAux_congr (b : Nat) :
    ∀ m f₁ f₂ : Nat, m ≤ f₁ → m ≤ f₂ → ceilLogAux b f₁ m = ceilLogAux b f₂ m := by
  intro m
  induction m using Nat.strong_induction_on with
  | _ m ih =>
    intro f₁ f₂ h₁ h₂
    by_cases hm : m ≤ 1
    · rw [ceilLogAux_of_le_one hm, ceilLogAux_of_le_one hm]
    by_cases hb : 1 < b
    · obtain ⟨g₁, rfl⟩ : ∃ g, f₁ = g + 1 := ⟨f₁ - 1, by omega⟩
      obtain ⟨g₂, rfl⟩ : ∃ g, f₂ = g + 1 := ⟨f₂ - 1, by omega⟩
      simp only [ceilLogAux]
      rw [if_pos ⟨hb, by omega⟩, if_pos ⟨hb, by omega⟩]
      have hlt : (m + b - 1) / b < m := Nat.add_pred_div_lt hb (by omega)
      rw [ih _ hlt g₁ g₂ (by omega) (by omega)]
    · obtain ⟨g₁, rfl⟩ : ∃ g, f₁ = g + 1 := ⟨f₁ - 1, by omega⟩
      obtain ⟨g₂, rfl⟩ : ∃ g, f₂ = g + 1 := ⟨f₂ - 1, by omega⟩
      simp only [ceilLogAux]
      rw [if_neg (by tauto), if_neg (by tauto)]

/-- `ceilLog` agrees with Mathlib's ceiling logarithm. -/
theorem ceilLog_eq_clog (b : Nat) : ∀ m, ceilLog b m = Nat.clog b m := by
  intro m
  induction m using Nat.strong_induction_on with
  | _ m ih =>
    by_cases hm : m ≤ 1
    · rw [ceilLog, ceilLogAux_of_le_one hm, Nat.clog_of_right_le_one hm]
    by_cases hb : 1 < b
    · have h2 : 2 ≤ m := by omega
      obtain ⟨g, hg⟩ : ∃ g, m = g + 1 := ⟨m - 1, by omega⟩
      have hlt : (m + b - 1) / b < m := Nat.add_pred_div_lt hb h2
      rw [Nat.clog_of_two_le hb h2, ← ih _ hlt]
      rw [ceilLog]
      conv_lhs => rw [hg]
      simp only [ceilLogAux]
      rw [if_pos ⟨hb, by omega⟩, ← hg, ceilLog]
      rw [ceilLogAux_congr b _ _ _ (by omega) le_rfl]
    · rw [Nat.clog_of_left_le_one (by omega), ceilLog]
      obtain ⟨g, rfl⟩ : ∃ g, m = g + 1 := ⟨m - 1, by omega⟩
      simp only [ceilLogAux]
      rw [if_neg (by tauto)]

theorem natDigitsAux_of_not {b f n : Nat} (h : ¬(1 < b ∧ b ≤ n)) :
    natDigitsAux b f n = [n] := by
  cases f with
  | zero => rfl
  | succ f => simp only [natDigitsAux]; rw [if_neg h]

theorem natDigitsAux_congr (b : Nat) :
    ∀ n f₁ f₂ : Nat, n ≤ f₁ → n ≤ f₂ → natDigitsAux b f₁ n = natDigitsAux b f₂ n := by
  intro n
  induction n using Nat.strong_induction_on with
  | _ n ih =>
    intro f₁ f₂ h₁ h₂
    by_cases h : 1 < b ∧ b ≤ n
    · obtain ⟨g₁, rfl⟩ : ∃ g, f₁ = g + 1 := ⟨f₁ - 1, by omega⟩
      obtain ⟨g₂, rfl⟩ : ∃ g, f₂ = g + 1 := ⟨f₂ - 1, by omega⟩
      simp only [natDigitsAux]
      rw [if_pos h, if_pos h]
      have hlt : n / b < n := Nat.div_lt_self (by omega) h.1
      rw [ih _ hlt g₁ g₂ (by omega) (by omega)]
    · rw [natDigitsAux_of_not h, natDigitsAux_of_not h]

theorem natDigitsMSB_of_not {b n : Nat} (h : ¬(1 < b ∧ b ≤ n)) :
    natDigitsMSB b n = [n] :=
  natDigitsAux_of_not h

theorem natDigitsMSB_step {b n : Nat} (hb : 1 < b) (hn : b ≤ n) :
    natDigitsMSB b n = natDigitsMSB b (n / b) ++ [n % b] := by
  obtain ⟨g, hg⟩ : ∃ g, n = g + 1 := ⟨n - 1, by omega⟩
  rw [natDigitsMSB]
  conv_lhs => rw [hg]
  simp only [natDigitsAux]
  rw [if_pos ⟨hb, by omega⟩, ← hg, natDigitsMSB]
  have hlt : n / b < n := Nat.div_lt_self (by omega) hb
  rw [natDigitsAux_congr b _ _ _ (by omega) le_rfl]

theorem natDigitsMSB_length_le {b : Nat} (hb : 1 < b) :
    ∀ n d : Nat, n < b ^ d → 1 ≤ d → (natDigitsMSB b n).length ≤ d := by
  intro n
  induction n using Nat.strong_induction_on with
  | _ n ih =>
    intro d hnd hd
    by_cases h : b ≤ n
    · have hd2 : 2 ≤ d := by
        by_contra hc
        have : d = 1 := by omega
        subst this
        simp at hnd
        omega
      rw [natDigitsMSB_step hb h, List.length_append]
      have hq : n / b < b ^ (d - 1) := by
        rw [Nat.div_lt_iff_lt_mul (by omega)]
        calc n < b ^ d := hnd
        _ = b ^ (d - 1) * b := by
            rw [← Nat.pow_succ]
            congr 1
            omega
      have := ih (n / b) (Nat.div_lt_self (by omega) hb) (d - 1) hq (by omega)
      simp only [List.length_singleton]
      omega
    · rw [natDigitsMSB_of_not (by tauto)]
      simpa using hd

theorem natDigitsMSB_digit_lt {b : Nat} (hb : 1 < b) :
    ∀ n : Nat, ∀ x ∈ natDigitsMSB b n, x < b := by
  intro n
  induction n using Nat.strong_induction_on with
  | _ n ih =>
    intro x hx
    by_cases h : b ≤ n
    · rw [natDigitsMSB_step hb h] at hx
      rcases List.mem_append.1 hx with h' | h'
      · exact ih (n / b) (Nat.div_lt_self (by omega) hb) x h'
      · simp at h'
        subst h'
        exact Nat.mod_lt _ (by omega)
    · rw [natDigitsMSB_of_not (by tauto)] at hx
      simp at hx
      omega

/-! ### Decoding -/

theorem hintStrToNumber_append_single (chars s : List Char) (c : Char) :
    hintStrToNumber chars (s ++ [c]) =
      hintStrToNumber chars s * chars.length + chars.indexOf c := by
  simp [hintStrToNumber, List.foldl_append]

theorem decode_digits {chars : List Char} (hnd : chars.Nodup) (hb : 1 < chars.length) :
    ∀ n : Nat,
      hintStrToNumber chars ((natDigitsMSB chars.length n).map (fun r => chars.getD r 'a')) = n := by
  intro n
  induction n using Nat.strong_induction_on with
  | _ n ih =>
    by_cases h : chars.length ≤ n
    · rw [natDigitsMSB_step hb h, List.map_append, List.map_singleton,
        hintStrToNumber_append_single,
        ih (n / chars.length) (Nat.div_lt_self (by omega) hb)]
      have hm : n % chars.length < chars.length := Nat.mod_lt _ (by omega)
      rw [List.getD_eq_getElem chars 'a' hm, List.indexOf_getElem hnd,
        Nat.mul_comm (n / chars.length) chars.length]
      exact Nat.div_add_mod n chars.length
    · rw [natDigitsMSB_of_not (by tauto)]
      have hn : n < chars.length := by omega
      simp only [List.map_singleton, hintStrToNumber, List.foldl_cons, List.foldl_nil]
      rw [List.getD_eq_getElem chars 'a' hn, List.indexOf_getElem hnd]
      omega

theorem decode_pad {chars : List Char} (h0 : chars ≠ []) (m : Nat) (s : List Char) :
    hintStrToNumber chars (List.replicate m (chars.getD 0 'a') ++ s) =
      hintStrToNumber chars s := by
  have hidx : chars.indexOf (chars.getD 0 'a') = 0 := by
    cases chars with
    | nil => simp at h0
    | cons c t => simp [List.indexOf_cons_self]
  induction m with
  | zero => simp
  | succ m ih =>
    rw [List.replicate_succ, List.cons_append]
    simp only [hintStrToNumber, List.foldl_cons, hidx, Nat.zero_mul, Nat.zero_add] at ih ⊢
    exact ih

theorem decode_numberToHintStr {chars : List Char} (hnd : chars.Nodup)
    (hb : 1 < chars.length) (n d : Nat) :
    hintStrToNumber chars (numberToHintStr n chars d) = n := by
  simp only [numberToHintStr]
  rw [decode_pad (by intro h; rw [h] at hb; simp at hb), decode_digits hnd hb]

theorem numberToHintStr_length {chars : List Char} (hb : 1 < chars.length)
    {n d : Nat} (hnd : n < chars.length ^ d) (hd : 1 ≤ d) :
    (numberToHintStr n chars d).length = d := by
  rw [numberToHintStr]
  simp only [List.length_append, List.length_replicate, List.length_map]
  have := natDigitsMSB_length_le hb n d hnd hd
  omega

theorem mem_numberToHintStr {chars : List Char} (hb : 1 < chars.length)
    {n d : Nat} {c : Char} (hc : c ∈ numberToHintStr n chars d) : c ∈ chars := by
  rw [numberToHintStr] at hc
  simp only [List.mem_append, List.mem_replicate, List.mem_map] at hc
  rcases hc with ⟨-, rfl⟩ | ⟨r, hr, rfl⟩
  · rw [List.getD_eq_getElem chars 'a' (by omega)]
    exact List.getElem_mem _
  · have : r < chars.length := natDigitsMSB_digit_lt hb n r hr
    rw [List.getD_eq_getElem chars 'a' this]
    exact List.getElem_mem _

/-! ### The shuffle is a permutation -/

theorem flatten_filter_key_perm {β : Type} (key : β → Nat) :
    ∀ js : List Nat, js.Nodup → ∀ l : List β, (∀ x ∈ l, key x ∈ js) →
      ((js.map (fun j => l.filter (fun x => key x == j))).flatten).Perm l := by
  intro js
  induction js with
  | nil =>
    intro _ l hl
    have : l = [] := List.eq_nil_iff_forall_not_mem.2 (fun x hx => by simpa using hl x hx)
    subst this
    simp
  | cons j tl ih =>
    intro hnd l hl
    have hj : j ∉ tl := (List.nodup_cons.1 hnd).1
    have htl : tl.Nodup := (List.nodup_cons.1 hnd).2
    simp only [List.map_cons, List.flatten_cons]
    have hmaps : tl.map (fun j' => l.filter (fun x => key x == j')) =
        tl.map (fun j' => (l.filter (fun x => !(key x == j))).filter
          (fun x => key x == j')) := by
      apply List.map_congr_left
      intro j' hj'
      rw [List.filter_filter]
      apply List.filter_congr
      intro x _
      by_cases h : key x = j'
      · have hj'j : ¬ j' = j := fun hc => hj (hc ▸ hj')
        simp [h, hj'j]
      · simp [h]
    rw [hmaps]
    have hsub : ∀ x ∈ l.filter (fun x => !(key x == j)), key x ∈ tl := by
      intro x hx
      rw [List.mem_filter] at hx
      have hmem := hl x hx.1
      have hxne : ¬ key x = j := by simpa using hx.2
      simp only [List.mem_cons] at hmem
      rcases hmem with h | h
      · exact absurd h hxne
      · exact h
    have hrec := ih htl (l.filter (fun x => !(key x == j))) hsub
    exact (List.Perm.append_left _ hrec).trans (List.filter_append_perm _ l)

theorem shuffleHints_perm (l : List (List Char)) (K : Nat) (hK : 0 < K) :
    (shuffleHints l K).Perm l := by
  have h1 : shuffleHints l K =
      (((List.range K).map (fun j => l.enum.filter (fun p => p.1 % K == j))).flatten).map
        Prod.snd := by
    rw [List.map_flatten, List.map_map]
    rfl
  rw [h1]
  have h2 := flatten_filter_key_perm (fun p : Nat × List Char => p.1 % K)
    (List.range K) (List.nodup_range K) l.enum
    (by intro x _; rw [List.mem_range]; exact Nat.mod_lt _ hK)
  have h3 := h2.map Prod.snd
  rwa [List.enum_map_snd] at h3

/-! ### Arithmetic facts about `short_count`

These are parametric in the program-computed digit count `needed`.  The
hypotheses `n ≤ K ^ needed` and `shortCountOf n needed chars ≤ n` used below
hold for every value line 181's float computation has been observed to
produce: the exact `ceilLog` value (where `short_count < n`), and the
overshoot `ceilLog + 1` occurring at perfect powers `n = K ^ e`, where
`short_count = K^e - K^(e-1) < n` (e.g. `n = 125`, `K = 5`,
`needed = 4`). -/

theorem pow_sub_one_div {K M : Nat} (hK : 2 ≤ K) (hM : 1 ≤ M) :
    (M * K - 1) / K = M - 1 := by
  have hexp : (M - 1) * K = M * K - K := by rw [Nat.sub_mul, one_mul]
  have hA : K ≤ M * K := Nat.le_mul_of_pos_left _ (by omega)
  have hsplit : M * K - 1 = (K - 1) + (M - 1) * K := by omega
  rw [hsplit, Nat.add_mul_div_right _ _ (by omega : 0 < K),
    Nat.div_eq_of_lt (by omega)]
  omega

theorem shortCount_lt_pow_pred {chars : List Char} {n needed : Nat}
    (hK : 2 ≤ chars.length) (hn : 1 ≤ n) (h1 : 1 ≤ needed) :
    shortCountOf n needed chars < chars.length ^ (needed - 1) := by
  have hM : 1 ≤ chars.length ^ (needed - 1) := Nat.one_le_pow _ _ (by omega)
  have h3 : chars.length ^ needed = chars.length ^ (needed - 1) * chars.length := by
    rw [← Nat.pow_succ]
    congr 1
    omega
  rw [shortCountOf, h3]
  have h4 : (chars.length ^ (needed - 1) * chars.length - n) / chars.length ≤
      (chars.length ^ (needed - 1) * chars.length - 1) / chars.length :=
    Nat.div_le_div_right (by omega)
  rw [pow_sub_one_div hK hM] at h4
  omega

theorem shortCount_eq_zero {chars : List Char} {n needed : Nat}
    (hK : 2 ≤ chars.length) (hn : 1 ≤ n)
    (h : needed ≤ 1) : shortCountOf n needed chars = 0 := by
  rcases Nat.eq_zero_or_pos needed with h0 | h0
  · rw [shortCountOf, h0, pow_zero]
    have h1 : 1 - n = 0 := by omega
    rw [h1]
    simp
  · have h1 : needed = 1 := by omega
    rw [shortCountOf, h1, pow_one]
    exact Nat.div_eq_of_lt (by omega)

theorem needed_pos_of_two_le {chars : List Char} {n needed : Nat}
    (hn : 2 ≤ n) (hle : n ≤ chars.length ^ needed) : 1 ≤ needed := by
  rcases Nat.eq_zero_or_pos needed with h0 | h0
  · rw [h0, pow_zero] at hle
    omega
  · exact h0

theorem start_add_longCount_le {chars : List Char} {n needed : Nat}
    (hle : n ≤ chars.length ^ needed) :
    shortCountOf n needed chars * chars.length + longCountOf n needed chars ≤
      chars.length ^ needed := by
  rw [longCountOf]
  have h1 : shortCountOf n needed chars * chars.length ≤ chars.length ^ needed - n :=
    Nat.div_mul_le_self _ _
  have h2 : shortCountOf n needed chars * chars.length + n ≤ chars.length ^ needed := by
    have h3 := Nat.add_le_add_right h1 n
    rwa [Nat.sub_add_cancel hle] at h3
  exact le_trans (Nat.add_le_add_left (Nat.sub_le _ _) _) h2

theorem hintStringsPre_length {chars : List Char} {n needed : Nat}
    (hK : 2 ≤ chars.length) (hn : 1 ≤ n)
    (hsc : shortCountOf n needed chars ≤ n) :
    (hintStringsPre n needed chars).length = n := by
  rw [hintStringsPre, List.length_append, longsOf, List.length_map,
    List.length_range', shortsOf]
  split_ifs with h
  · rw [List.length_map, List.length_range, longCountOf]
    omega
  · rw [List.length_nil]
    have h0 : shortCountOf n needed chars = 0 :=
      shortCount_eq_zero hK hn (by omega)
    rw [longCountOf, h0]
    omega

/-! ### Pairwise distinctness and the prefix-free property -/

theorem enc_rel_same {chars : List Char} (hnd : chars.Nodup) (hb : 1 < chars.length)
    {i j d : Nat} (hij : i ≠ j) (hi : i < chars.length ^ d) (hj : j < chars.length ^ d)
    (hd : 1 ≤ d) :
    numberToHintStr i chars d ≠ numberToHintStr j chars d ∧
      ¬ numberToHintStr i chars d <+: numberToHintStr j chars d ∧
      ¬ numberToHintStr j chars d <+: numberToHintStr i chars d := by
  have hne : numberToHintStr i chars d ≠ numberToHintStr j chars d := by
    intro h
    apply hij
    have h2 := congrArg (hintStrToNumber chars) h
    rwa [decode_numberToHintStr hnd hb, decode_numberToHintStr hnd hb] at h2
  have hlen : (numberToHintStr i chars d).length = (numberToHintStr j chars d).length := by
    rw [numberToHintStr_length hb hi hd, numberToHintStr_length hb hj hd]
  exact ⟨hne, fun h => hne (h.eq_of_length hlen),
    fun h => hne ((h.eq_of_length hlen.symm).symm)⟩

theorem enc_rel_cross {chars : List Char} (hnd : chars.Nodup) (hb : 1 < chars.length)
    {i v d : Nat} (hd : 2 ≤ d) (hi : i < chars.length ^ (d - 1))
    (hv : v < chars.length ^ d) (hiv : (i + 1) * chars.length ≤ v) :
    numberToHintStr i chars (d - 1) ≠ numberToHintStr v chars d ∧
      ¬ numberToHintStr i chars (d - 1) <+: numberToHintStr v chars d ∧
      ¬ numberToHintStr v chars d <+: numberToHintStr i chars (d - 1) := by
  have hls : (numberToHintStr i chars (d - 1)).length = d - 1 :=
    numberToHintStr_length hb hi (by omega)
  have hlt : (numberToHintStr v chars d).length = d :=
    numberToHintStr_length hb hv (by omega)
  have hne : numberToHintStr i chars (d - 1) ≠ numberToHintStr v chars d := by
    intro h
    have h2 := congrArg List.length h
    rw [hls, hlt] at h2
    omega
  refine ⟨hne, ?_, ?_⟩
  · rintro ⟨r, hr⟩
    have hlr : r.length = 1 := by
      have h2 := congrArg List.length hr
      rw [List.length_append, hls, hlt] at h2
      omega
    obtain ⟨c, rfl⟩ := List.length_eq_one.1 hlr
    have hdec := congrArg (hintStrToNumber chars) hr
    rw [hintStrToNumber_append_single, decode_numberToHintStr hnd hb,
      decode_numberToHintStr hnd hb] at hdec
    have hcmem : c ∈ chars := by
      apply mem_numberToHintStr hb (n := v) (d := d)
      rw [← hr]
      exact List.mem_append_right _ (List.mem_singleton_self c)
    have hidx : chars.indexOf c < chars.length := List.indexOf_lt_length.2 hcmem
    have hexp : (i + 1) * chars.length = i * chars.length + chars.length := by ring
    omega
  · intro h
    have h2 := h.length_le
    rw [hls, hlt] at h2
    omega

theorem hintStringsPre_pairwise {chars : List Char} {n needed : Nat}
    (hK : 2 ≤ chars.length) (hnd : chars.Nodup) (hn : 1 ≤ n)
    (hle : n ≤ chars.length ^ needed)
    (hsc : shortCountOf n needed chars ≤ n) :
    (hintStringsPre n needed chars).Pairwise
      (fun s t => s ≠ t ∧ ¬ s <+: t ∧ ¬ t <+: s) := by
  have hb : 1 < chars.length := by omega
  rw [hintStringsPre, List.pairwise_append]
  refine ⟨?_, ?_, ?_⟩
  · rw [shortsOf]
    split_ifs with hneed
    · rw [List.pairwise_map]
      apply List.Pairwise.imp_of_mem ?_
        (List.pairwise_lt_range (shortCountOf n needed chars))
      intro i j hi hj hij
      rw [List.mem_range] at hi hj
      have hspp : shortCountOf n needed chars < chars.length ^ (needed - 1) :=
        shortCount_lt_pow_pred hK hn (by omega)
      exact enc_rel_same hnd hb (Nat.ne_of_lt hij) (by omega) (by omega) (by omega)
    · exact List.Pairwise.nil
  · rw [longsOf, List.pairwise_map]
    apply List.Pairwise.imp_of_mem ?_
      (List.pairwise_lt_range' (shortCountOf n needed chars * chars.length)
        (longCountOf n needed chars))
    intro v w hv hw hvw
    rw [List.mem_range'_1] at hv hw
    have h2 : 2 ≤ longCountOf n needed chars := by omega
    have hn2 : 2 ≤ n := by
      rw [longCountOf] at h2
      omega
    have hneed1 : 1 ≤ needed := needed_pos_of_two_le hn2 hle
    have hub := start_add_longCount_le hle
    exact enc_rel_same hnd hb (Nat.ne_of_lt hvw) (by omega) (by omega) hneed1
  · intro s hs t ht
    rw [shortsOf] at hs
    split_ifs at hs with hneed
    · rw [List.mem_map] at hs
      obtain ⟨i, hi, rfl⟩ := hs
      rw [List.mem_range] at hi
      rw [longsOf, List.mem_map] at ht
      obtain ⟨v, hv, rfl⟩ := ht
      rw [List.mem_range'_1] at hv
      have hspp : shortCountOf n needed chars < chars.length ^ (needed - 1) :=
        shortCount_lt_pow_pred hK hn (by omega)
      have hub := start_add_longCount_le hle
      have hmul : (i + 1) * chars.length ≤ shortCountOf n needed chars * chars.length :=
        Nat.mul_le_mul_right _ (by omega)
      exact enc_rel_cross hnd hb (by omega) (by omega) (by omega) (by omega)
    · simp at hs

/-- C1: for every element count `N ≥ 1`, every alphabet of `K ≥ 2` distinct
characters, and every digit count `needed` that line 181's floating-point
computation can produce for that run, `_hint_strings` returns exactly `N`
label strings, pairwise distinct, and no returned label is a proper prefix
of another (the output list is positionally zipped 1:1 with the input
targets by `start`).  The two hypotheses `N ≤ K^needed` and
`short_count ≤ N` hold for every observed value of the float computation:
the exact `ceil(log_K N)` and the one-too-large value at perfect powers
(as at `N = 125`, `K = 5`, `needed = 4` — the witness instantiates the
theorem at exactly that divergent run). -/
theorem claim_C1 (chars : List Char) (n needed : Nat) (hK : 2 ≤ chars.length)
    (hnd : chars.Nodup) (hn : 1 ≤ n) (hle : n ≤ chars.length ^ needed)
    (hsc : shortCountOf n needed chars ≤ n) :
    (hintStrings n needed chars).length = n ∧
    (hintStrings n needed chars).Pairwise
      (fun s t => s ≠ t ∧ ¬ s <+: t ∧ ¬ t <+: s) := by
  have hperm := shuffleHints_perm (hintStringsPre n needed chars) chars.length (by omega)
  rw [hintStrings]
  constructor
  · rw [hperm.length_eq, hintStringsPre_length hK hn hsc]
  · have hsym : ∀ {x y : List Char},
        (x ≠ y ∧ ¬ x <+: y ∧ ¬ y <+: x) → (y ≠ x ∧ ¬ y <+: x ∧ ¬ x <+: y) :=
      fun h => ⟨h.1.symm, h.2.2, h.2.1⟩
    exact (hperm.pairwise_iff hsym).2 (hintStringsPre_pairwise hK hnd hn hle hsc)

/-- Witness for C1 at the float-divergent program run `N = 125`, `K = 5`:
CPython computes `needed = 4` there (`math.log(125, 5) =
3.0000000000000004`), and the theorem's hypotheses hold at that value, so
the theorem covers exactly that run of the program. -/
theorem claim_C1_witness :
    (hintStrings 125 4 ['a', 'b', 'c', 'd', 'e']).length = 125 ∧
    (hintStrings 125 4 ['a', 'b', 'c', 'd', 'e']).Pairwise
      (fun s t => s ≠ t ∧ ¬ s <+: t ∧ ¬ t <+: s) :=
  claim_C1 ['a', 'b', 'c', 'd', 'e'] 125 4 (by decide) (by decide) (by decide)
    (by decide) (by decide)

/-! ### Label lengths (claim C2) -/

/-- C2 is false of the program — a floating-point slip in the code against
its own stated intent.  At `N = 125`, `K = 5` CPython's `math.log(125, 5)`
returns `3.0000000000000004`, so line 181 computes `needed = 4`, although
the exact worst-case digit count (the code comment's "how many digits the
link hints will require in the worst case", and the spec's
`d = ceil(log_K(N))`) is 3.  The program then emits 100 labels of length 3
and 25 labels of length 4, while the claim allows only lengths `d = 3` and
`d - 1 = 2`, with at most `(5^3 - 125)/5 = 0` of the shorter length.  This
theorem evaluates the generator at the program-computed `needed = 4` for
that failing input: 25 labels have length 4, outside the claimed length
set. -/
theorem claim_C2 :
    labelDigits 125 5 = 3 ∧
    (hintStrings 125 4 ['a', 'b', 'c', 'd', 'e']).countP
      (fun s => s.length == 4) = 25 ∧
    ¬ (∀ s ∈ hintStrings 125 4 ['a', 'b', 'c', 'd', 'e'],
        s.length = labelDigits 125 5 ∨ s.length = labelDigits 125 5 - 1) := by
  decide

/-! ### Decoded values (claim C3) -/

theorem mem_shorts_decode {chars : List Char} {n needed : Nat}
    (hK : 2 ≤ chars.length) (hnd : chars.Nodup) {s : List Char}
    (hs : s ∈ shortsOf n needed chars) :
    hintStrToNumber chars s < shortCountOf n needed chars := by
  rw [shortsOf] at hs
  split_ifs at hs with hneed
  · rw [List.mem_map] at hs
    obtain ⟨i, hi, rfl⟩ := hs
    rw [List.mem_range] at hi
    rwa [decode_numberToHintStr hnd (by omega)]
  · simp at hs

theorem mem_longs_decode {chars : List Char} {n needed : Nat}
    (hK : 2 ≤ chars.length) (hnd : chars.Nodup) {s : List Char}
    (hs : s ∈ longsOf n needed chars) :
    shortCountOf n needed chars * chars.length ≤ hintStrToNumber chars s ∧
      hintStrToNumber chars s <
        shortCountOf n needed chars * chars.length + longCountOf n needed chars := by
  rw [longsOf, List.mem_map] at hs
  obtain ⟨v, hv, rfl⟩ := hs
  rw [List.mem_range'_1] at hv
  rwa [decode_numberToHintStr hnd (by omega)]

/-- Counterexample to C3 as stated: for `N = 5` over alphabet `"ab"` the
program computes `needed = 3` at line 181 (`math.log(5, 2) = 2.321928...`,
far from an integer, so float and exact agree here) and generates the label
"bab", which decodes (by inverse base-2 digit extraction) to 5 — not in
`[0, 5)`. -/
theorem claim_C3_cex :
    ['b', 'a', 'b'] ∈ hintStrings 5 3 ['a', 'b'] ∧
    ¬ (∀ s ∈ hintStrings 5 3 ['a', 'b'], hintStrToNumber ['a', 'b'] s < 5) := by
  decide

/-- C3 (amended): decoding each generated label by inverse base-`K` digit
extraction yields values that are pairwise distinct, but they lie in
`[0, K^needed)` — `needed` being the digit count the program computed at
line 181 for that run — not necessarily in `[0, N)`: short labels decode
into `[0, short_count)` and long labels into
`[short_count*K, short_count*K + long_count)`, whose upper end exceeds `N`
whenever `short_count > 0` (it reaches 524 at the float-divergent run
`N = 125`, `K = 5`, `needed = 4`, which the witness instantiates). -/
theorem claim_C3 (chars : List Char) (n needed : Nat) (hK : 2 ≤ chars.length)
    (hnd : chars.Nodup) (_hn : 1 ≤ n) (hle : n ≤ chars.length ^ needed)
    (hsc : shortCountOf n needed chars ≤ n) :
    (∀ s ∈ hintStrings n needed chars,
        hintStrToNumber chars s < chars.length ^ needed) ∧
    (hintStrings n needed chars).Pairwise
      (fun s t => hintStrToNumber chars s ≠ hintStrToNumber chars t) := by
  have hperm := shuffleHints_perm (hintStringsPre n needed chars) chars.length (by omega)
  have hub := start_add_longCount_le hle
  rw [hintStrings]
  constructor
  · intro s hs
    rw [hperm.mem_iff, hintStringsPre, List.mem_append] at hs
    rcases hs with hs | hs
    · have := mem_shorts_decode hK hnd hs
      omega
    · have := mem_longs_decode hK hnd hs
      omega
  · have hsym : ∀ {x y : List Char},
        hintStrToNumber chars x ≠ hintStrToNumber chars y →
          hintStrToNumber chars y ≠ hintStrToNumber chars x := fun h => h.symm
    refine (hperm.pairwise_iff hsym).2 ?_
    rw [hintStringsPre, List.pairwise_append]
    refine ⟨?_, ?_, ?_⟩
    · rw [shortsOf]
      split_ifs with hneed
      · rw [List.pairwise_map]
        apply List.Pairwise.imp_of_mem ?_
          (List.pairwise_lt_range (shortCountOf n needed chars))
        intro i j _ _ hij
        rw [decode_numberToHintStr hnd (by omega), decode_numberToHintStr hnd (by omega)]
        omega
      · exact List.Pairwise.nil
    · rw [longsOf, List.pairwise_map]
      apply List.Pairwise.imp_of_mem ?_
        (List.pairwise_lt_range' (shortCountOf n needed chars * chars.length)
          (longCountOf n needed chars))
      intro v w _ _ hvw
      rw [decode_numberToHintStr hnd (by omega), decode_numberToHintStr hnd (by omega)]
      omega
    · intro s hs t ht
      have h1 := mem_shorts_decode hK hnd hs
      have h2 := (mem_longs_decode hK hnd ht).1
      have h3 : shortCountOf n needed chars ≤
          shortCountOf n needed chars * chars.length :=
        Nat.le_mul_of_pos_right _ (by omega)
      omega

/-- Witness for the amended C3 at the float-divergent program run `N = 125`,
`K = 5`, `needed = 4`: decoded values stay below `5^4 = 625` (long labels
reach 524) and are pairwise distinct. -/
theorem claim_C3_witness :
    (∀ s ∈ hintStrings 125 4 ['a', 'b', 'c', 'd', 'e'],
        hintStrToNumber ['a', 'b', 'c', 'd', 'e'] s < 5 ^ 4) ∧
    (hintStrings 125 4 ['a', 'b', 'c', 'd', 'e']).Pairwise
      (fun s t => hintStrToNumber ['a', 'b', 'c', 'd', 'e'] s ≠
        hintStrToNumber ['a', 'b', 'c', 'd', 'e'] t) :=
  claim_C3 ['a', 'b', 'c', 'd', 'e'] 125 4 (by decide) (by decide) (by decide)
    (by decide) (by decide)

/-! ### Distribution of leading characters (claim C4) -/

/-- Counterexample to C4 as stated, at two float-safe inputs where line 181
computes the exact ceiling log (`math.log(17, 4) = 2.044...` and
`math.log(4, 3) = 1.261...` are far from integers, so `needed = 3` and
`needed = 2` respectively).  First conjunct: for `N = 17`, `K = 4` (alphabet
`"abcd"`), the labels beginning with 'd' sit at positions 4 and 16, a gap of
12, exceeding `ceil(17/4) + 1 = 6`.  Second conjunct: for `N = 4`, `K = 3`
(alphabet `"abc"`), `N > K` yet the three labels beginning with 'b' occupy
the contiguous positions 1, 2, 3. -/
theorem claim_C4_cex :
    (leadingPositions (hintStrings 17 3 ['a', 'b', 'c', 'd']) 'd' = [4, 16] ∧
      ¬ (16 - 4 ≤ (17 + 4 - 1) / 4 + 1)) ∧
    (leadingPositions (hintStrings 4 2 ['a', 'b', 'c']) 'b' = [1, 2, 3] ∧ 4 > 3 ∧
      2 = 1 + 1 ∧ 3 = 2 + 1) := by
  decide

/-- C4 (amended): the shuffle is exactly the bucket permutation of the
pre-shuffle label list — for every leading character `c` the number of labels
beginning with `c` (the length of its position list) is preserved — but no
gap bound of `ceil(N/K) + 1` holds for those positions, and the labels
sharing a leading character can remain fully clustered even when `N > K`
(see the counterexample).  Parametric in the digit count `needed`, so it
covers every run of the program regardless of what line 181's float
computation returned. -/
theorem claim_C4 (n needed : Nat) (chars : List Char) (c : Char)
    (hK : 0 < chars.length) :
    (hintStrings n needed chars).Perm (hintStringsPre n needed chars) ∧
    (leadingPositions (hintStrings n needed chars) c).length =
      (hintStringsPre n needed chars).countP (fun s => s.head? == some c) := by
  have hperm := shuffleHints_perm (hintStringsPre n needed chars) chars.length hK
  rw [hintStrings]
  refine ⟨hperm, ?_⟩
  rw [leadingPositions, List.length_map, ← List.countP_eq_length_filter]
  have h1 : (shuffleHints (hintStringsPre n needed chars) chars.length).enum.countP
        (fun p => p.2.head? == some c) =
      (shuffleHints (hintStringsPre n needed chars) chars.length).countP
        (fun s => s.head? == some c) := by
    conv_rhs =>
      rw [← List.enum_map_snd (shuffleHints (hintStringsPre n needed chars) chars.length)]
    rw [List.countP_map]
    rfl
  rw [h1, hperm.countP_eq]

/-- Witness for the amended C4 at `N = 4`, alphabet `"abc"`, `c = 'b'`,
with the program's computed `needed = 2`. -/
theorem claim_C4_witness :
    (hintStrings 4 2 ['a', 'b', 'c']).Perm (hintStringsPre 4 2 ['a', 'b', 'c']) ∧
    (leadingPositions (hintStrings 4 2 ['a', 'b', 'c']) 'b').length =
      (hintStringsPre 4 2 ['a', 'b', 'c']).countP (fun s => s.head? == some 'b') :=
  claim_C4 4 2 ['a', 'b', 'c'] 'b' (by decide)

/-! ### Session theorems (claims C5-C10) -/

theorem dictLookup_filter_none {β : Type} (p : List Char × β → Bool)
    (d : List (List Char × β)) (l : List Char)
    (hp : ∀ v : β, p (l, v) = false) :
    dictLookup (d.filter p) l = none := by
  induction d with
  | nil => rfl
  | cons hd tl ih =>
    rcases hd with ⟨k, v⟩
    by_cases h : p (k, v) = true
    · rw [List.filter_cons_of_pos h, dictLookup]
      split_ifs with hk
      · subst hk
        rw [hp v] at h
        exact absurd h (by simp)
      · exact ih
    · rw [List.filter_cons_of_neg (by simpa using h)]
      exact ih

/-- Counterexample to C5 as stated: in the Active session `yankSession` the
key "aa" is present in the mapping and the mode "yank" is not the rapid
variant, yet `fire "aa"` dispatches nothing (it only emits an error message),
raises nothing, and the session stays Active with its mapping intact instead
of transitioning to Inactive with the mapping cleared. -/
theorem claim_C5_cex :
    Active yankSession ∧ yankSession.target = some "yank" ∧
    dictLookup yankSession.elems ['a', 'a'] = some noHrefElem ∧
    fire yankSession ['a', 'a'] =
      .ok (yankSession,
        [Action.msgError "No suitable link found for this element."]) ∧
    yankSession.elems ≠ [] := by
  decide

/-- C5 (amended): for an Active session, `fire(typed)` with a string that is
not a key of the mapping fails with `UnknownLabelError` (a `KeyError`); with a
mapped key whose mode is a valid target, provided the mode does not require a
link or the element's link resolves, the target is dispatched according to the
mode and — unless the mode is the rapid variant — the session transitions to
Inactive with the mapping cleared, while in rapid mode it stays Active and
unchanged.  (The link-resolution proviso is what the claim as stated is
missing; see the counterexample and C10.) -/
theorem claim_C5 (s : HintSession) (typed : List Char) (hA : Active s) :
    (dictLookup s.elems typed = none → fire s typed = .error .unknownLabel) ∧
    (∀ elem t, dictLookup s.elems typed = some elem → s.target = some t →
      t ∈ validTargets → (t ∈ requireLink → resolveLink elem ≠ none) →
      ∃ acts, firedAction t elem (resolveLink elem) ∈ acts ∧
        ((t = "rapid" ∧ fire s typed = .ok (s, acts)) ∨
          (t ≠ "rapid" ∧ fire s typed = .ok (stopped s, acts) ∧
            (stopped s).elems = [] ∧ Inactive (stopped s)))) := by
  constructor
  · intro h
    rw [fire, h]
  · intro elem t hl ht htv hlink
    obtain ⟨f, hf⟩ := Option.ne_none_iff_exists'.1 hA.2
    simp only [validTargets, List.mem_cons, List.not_mem_nil, or_false] at htv
    have hstop : (stopped s).elems = [] ∧ Inactive (stopped s) :=
      ⟨rfl, rfl, rfl⟩
    rcases htv with rfl | rfl | rfl | rfl | rfl | rfl | rfl | rfl | rfl
    · exact ⟨[Action.click elem "normal"] ++
          (s.elems.map (fun p => Action.removeLabel p.1) ++
            [Action.setMode "normal", Action.msgClear]),
        List.mem_append_left _ (List.mem_singleton.2 (by simp [firedAction])),
        Or.inr ⟨by decide,
          by simp [fire, hl, ht, fireDispatch, stop, hf, requireLink, stopped],
          hstop.1, hstop.2⟩⟩
    · exact ⟨[Action.click elem "tab"] ++
          (s.elems.map (fun p => Action.removeLabel p.1) ++
            [Action.setMode "normal", Action.msgClear]),
        List.mem_append_left _ (List.mem_singleton.2 (by simp [firedAction])),
        Or.inr ⟨by decide,
          by simp [fire, hl, ht, fireDispatch, stop, hf, requireLink, stopped],
          hstop.1, hstop.2⟩⟩
    · exact ⟨[Action.click elem "bgtab"] ++
          (s.elems.map (fun p => Action.removeLabel p.1) ++
            [Action.setMode "normal", Action.msgClear]),
        List.mem_append_left _ (List.mem_singleton.2 (by simp [firedAction])),
        Or.inr ⟨by decide,
          by simp [fire, hl, ht, fireDispatch, stop, hf, requireLink, stopped],
          hstop.1, hstop.2⟩⟩
    · -- "yank"
      have hne := hlink (by decide)
      obtain ⟨l, hres⟩ : ∃ l, resolveLink elem = some l := by
        cases h : resolveLink elem with
        | none => exact absurd h hne
        | some l => exact ⟨l, rfl⟩
      exact ⟨[Action.yank l false] ++
          (s.elems.map (fun p => Action.removeLabel p.1) ++
            [Action.setMode "normal", Action.msgClear]),
        List.mem_append_left _ (List.mem_singleton.2 (by simp [firedAction, hres])),
        Or.inr ⟨by decide,
          by simp [fire, hl, ht, fireDispatch, stop, hf, requireLink, stopped, hres],
          hstop.1, hstop.2⟩⟩
    · -- "yank_primary"
      have hne := hlink (by decide)
      obtain ⟨l, hres⟩ : ∃ l, resolveLink elem = some l := by
        cases h : resolveLink elem with
        | none => exact absurd h hne
        | some l => exact ⟨l, rfl⟩
      exact ⟨[Action.yank l true] ++
          (s.elems.map (fun p => Action.removeLabel p.1) ++
            [Action.setMode "normal", Action.msgClear]),
        List.mem_append_left _ (List.mem_singleton.2 (by simp [firedAction, hres])),
        Or.inr ⟨by decide,
          by simp [fire, hl, ht, fireDispatch, stop, hf, requireLink, stopped, hres],
          hstop.1, hstop.2⟩⟩
    · -- "cmd"
      have hne := hlink (by decide)
      obtain ⟨l, hres⟩ : ∃ l, resolveLink elem = some l := by
        cases h : resolveLink elem with
        | none => exact absurd h hne
        | some l => exact ⟨l, rfl⟩
      exact ⟨[Action.setCmdText "open" l] ++
          (s.elems.map (fun p => Action.removeLabel p.1) ++
            [Action.setMode "normal", Action.msgClear]),
        List.mem_append_left _ (List.mem_singleton.2 (by simp [firedAction, hres])),
        Or.inr ⟨by decide,
          by simp [fire, hl, ht, fireDispatch, stop, hf, requireLink, stopped, hres],
          hstop.1, hstop.2⟩⟩
    · -- "cmd_tab"
      have hne := hlink (by decide)
      obtain ⟨l, hres⟩ : ∃ l, resolveLink elem = some l := by
        cases h : resolveLink elem with
        | none => exact absurd h hne
        | some l => exact ⟨l, rfl⟩
      exact ⟨[Action.setCmdText "tabopen" l] ++
          (s.elems.map (fun p => Action.removeLabel p.1) ++
            [Action.setMode "normal", Action.msgClear]),
        List.mem_append_left _ (List.mem_singleton.2 (by simp [firedAction, hres])),
        Or.inr ⟨by decide,
          by simp [fire, hl, ht, fireDispatch, stop, hf, requireLink, stopped, hres],
          hstop.1, hstop.2⟩⟩
    · -- "cmd_bgtab"
      have hne := hlink (by decide)
      obtain ⟨l, hres⟩ : ∃ l, resolveLink elem = some l := by
        cases h : resolveLink elem with
        | none => exact absurd h hne
        | some l => exact ⟨l, rfl⟩
      exact ⟨[Action.setCmdText "backtabopen" l] ++
          (s.elems.map (fun p => Action.removeLabel p.1) ++
            [Action.setMode "normal", Action.msgClear]),
        List.mem_append_left _ (List.mem_singleton.2 (by simp [firedAction, hres])),
        Or.inr ⟨by decide,
          by simp [fire, hl, ht, fireDispatch, stop, hf, requireLink, stopped, hres],
          hstop.1, hstop.2⟩⟩
    · -- "rapid"
      exact ⟨[Action.click elem "bgtab"],
        List.mem_singleton.2 (by simp [firedAction]),
        Or.inl ⟨rfl, by simp [fire, hl, ht, fireDispatch, requireLink]⟩⟩

/-- Witness for the amended C5: firing the never-mapped string "zz" on the
Active `normalSession` raises `UnknownLabelError`. -/
theorem claim_C5_witness :
    fire normalSession ['z', 'z'] = .error .unknownLabel :=
  (claim_C5 normalSession ['z', 'z'] (by decide)).1 (by decide)

/-- C6: for every Active session and typed string, after
`handle_partial_key(typed)` the mapping contains exactly the entries present
before whose label starts with `typed` (an order-preserving filter), and the
session remains Active — even when the resulting mapping is empty, with no
error and no state transition. -/
theorem claim_C6 (s : HintSession) (typed : List Char) (hA : Active s) :
    (handlePartialKey s typed).1.elems =
      s.elems.filter (fun p => typed.isPrefixOf p.1) ∧
    Active (handlePartialKey s typed).1 ∧
    ((handlePartialKey s typed).1.elems = [] →
      Active (handlePartialKey s typed).1) := by
  exact ⟨rfl, ⟨hA.1, hA.2⟩, fun _ => ⟨hA.1, hA.2⟩⟩

/-- Witness for C6: pruning `rapidSession` with "a". -/
theorem claim_C6_witness :
    (handlePartialKey rapidSession ['a']).1.elems =
      rapidSession.elems.filter (fun p => ['a'].isPrefixOf p.1) ∧
    Active (handlePartialKey rapidSession ['a']).1 ∧
    ((handlePartialKey rapidSession ['a']).1.elems = [] →
      Active (handlePartialKey rapidSession ['a']).1) :=
  claim_C6 rapidSession ['a'] (by decide)

/-- Counterexample to C7 as stated: starting from the freshly-initialised
session with a frame containing no elements, `start` reports "No elements
found." and does not enter hint mode — but it does modify session fields:
`_target` (shown here), `_baseurl` and `_frame` are overwritten before the
emptiness check, so the session state is not left unchanged. -/
theorem claim_C7_cex :
    start HintSession.initial emptyFrame "u" "all" "tab" 1 ['a', 'b'] =
      .ok ({ elems := [], frame := some emptyFrame, target := some "tab",
             baseurl := some "u", uiMode := "normal" },
        [Action.msgError "No elements found."]) ∧
    HintSession.initial.target = none ∧
    some "tab" ≠ (none : Option String) := by
  decide

/-- C7 (amended): `start` with no visible elements reports "No elements
found." (the spec's `NoTargetsError`), does not transition to Active, and
leaves the mapping and the input mode unchanged — but the `_target`,
`_baseurl` and `_frame` fields are overwritten with the new arguments before
the emptiness check, so the session state is not entirely unchanged. -/
theorem claim_C7 (s : HintSession) (frame : Frame) (baseurl mode target : String)
    (needed : Nat) (chars : List Char) (hmode : mode ∈ selectorModes)
    (hvis : frame.elems.filter (fun e => filterFunc mode e && e.visible) = []) :
    start s frame baseurl mode target needed chars =
      .ok (startFields s frame baseurl target,
        [Action.msgError "No elements found."]) ∧
    (startFields s frame baseurl target).uiMode = s.uiMode ∧
    (startFields s frame baseurl target).elems = s.elems ∧
    (startFields s frame baseurl target).target = some target ∧
    (startFields s frame baseurl target).baseurl = some baseurl ∧
    (startFields s frame baseurl target).frame = some frame := by
  refine ⟨?_, rfl, rfl, rfl, rfl, rfl⟩
  simp [start, hmode, hvis, startFields]

/-- Witness for the amended C7 at the initial session and an empty frame. -/
theorem claim_C7_witness :
    start HintSession.initial emptyFrame "u" "all" "tab" 1 ['a', 'b'] =
      .ok (startFields HintSession.initial emptyFrame "u" "tab",
        [Action.msgError "No elements found."]) ∧
    (startFields HintSession.initial emptyFrame "u" "tab").uiMode =
      HintSession.initial.uiMode ∧
    (startFields HintSession.initial emptyFrame "u" "tab").elems =
      HintSession.initial.elems ∧
    (startFields HintSession.initial emptyFrame "u" "tab").target = some "tab" ∧
    (startFields HintSession.initial emptyFrame "u" "tab").baseurl = some "u" ∧
    (startFields HintSession.initial emptyFrame "u" "tab").frame =
      some emptyFrame :=
  claim_C7 HintSession.initial emptyFrame "u" "all" "tab" 1 ['a', 'b']
    (by decide) (by decide)

/-- Counterexample to C8: after pruning the rapid session with "a" and firing
"aa", the session's entire state holds only the pruned mapping {"aa", "ab"} —
no separately retained full mapping exists anywhere in the state — and
re-firing the pruned label "ba" fails with `UnknownLabelError` even though
the session is still Active. -/
theorem claim_C8_cex :
    (handlePartialKey rapidSession ['a']).1.elems =
      [(['a', 'a'], linkElem), (['a', 'b'], linkElem)] ∧
    fire (handlePartialKey rapidSession ['a']).1 ['a', 'a'] =
      .ok ((handlePartialKey rapidSession ['a']).1,
        [Action.click linkElem "bgtab"]) ∧
    Active (handlePartialKey rapidSession ['a']).1 ∧
    fire (handlePartialKey rapidSession ['a']).1 ['b', 'a'] =
      .error .unknownLabel ∧
    (handlePartialKey rapidSession ['a']).1.elems ≠ rapidSession.elems := by
  decide

/-- C8 (amended): the session keeps only the single live mapping `_elems`.
In rapid mode a successful `fire` leaves the session — hence the pruned
mapping — unchanged, and entries pruned by `handle_partial_key` are not
retained anywhere: looking up any label that does not extend the typed
string in the pruned mapping yields nothing (so re-firing it fails).  No
original full mapping is kept separately. -/
theorem claim_C8 (s : HintSession) (_hA : Active s)
    (hr : s.target = some "rapid") :
    (∀ typed elem, dictLookup s.elems typed = some elem →
      fire s typed = .ok (s, [Action.click elem "bgtab"])) ∧
    (∀ pre l, pre.isPrefixOf l = false →
      dictLookup (handlePartialKey s pre).1.elems l = none) := by
  constructor
  · intro typed elem hl
    simp [fire, hl, hr, fireDispatch, requireLink]
  · intro pre l hp
    exact dictLookup_filter_none _ s.elems l (fun v => hp)

/-- Witness for the amended C8: the pruned label "ba" is gone from the rapid
session after `handle_partial_key "a"`. -/
theorem claim_C8_witness :
    dictLookup (handlePartialKey rapidSession ['a']).1.elems ['b', 'a'] =
      none :=
  (claim_C8 rapidSession (by decide) rfl).2 ['a'] ['b', 'a'] (by decide)

/-- Counterexample to C9 as stated: calling `stop` on the freshly-initialised
Inactive session raises `AttributeError` (from
`self._frame.contentsSizeChanged.disconnect` with `_frame` being `None`) —
it is not a no-op that completes without error. -/
theorem claim_C9_cex :
    Inactive HintSession.initial ∧
    stop HintSession.initial = .error .attributeError := by
  decide

/-- C9 (amended): from the Active state, `abort` (= `stop`) clears the
mapping and transitions to Inactive; from a state without a frame
(Inactive), it raises `AttributeError` instead of completing as a no-op,
leaving the session fields unchanged. -/
theorem claim_C9 (s : HintSession) :
    (Active s → ∃ acts, stop s = .ok (stopped s, acts) ∧
      (stopped s).elems = [] ∧ Inactive (stopped s)) ∧
    (s.frame = none → stop s = .error .attributeError) := by
  constructor
  · intro hA
    obtain ⟨f, hf⟩ := Option.ne_none_iff_exists'.1 hA.2
    exact ⟨s.elems.map (fun p => Action.removeLabel p.1) ++
        [Action.setMode "normal", Action.msgClear],
      by simp [stop, hf, stopped], rfl, ⟨rfl, rfl⟩⟩
  · intro h
    simp [stop, h]

/-- Witness for the amended C9: stopping the Active `normalSession`. -/
theorem claim_C9_witness :
    ∃ acts, stop normalSession = .ok (stopped normalSession, acts) ∧
      (stopped normalSession).elems = [] ∧ Inactive (stopped normalSession) :=
  (claim_C9 normalSession).1 (by decide)

/-- C10: when the session mode is one of the link-requiring targets ('yank',
'yank_primary', 'cmd', 'cmd_tab', 'cmd_bgtab') and the fired element's link
does not resolve (no `href`), `fire(typed)` with a mapped label dispatches no
action, raises nothing, and leaves the session Active with the mapping
unchanged: it returns the unchanged state with only the "No suitable link
found for this element." message. -/
theorem claim_C10 (s : HintSession) (typed : List Char) (elem : Elem)
    (t : String) (hA : Active s) (hl : dictLookup s.elems typed = some elem)
    (ht : s.target = some t) (hreq : t ∈ requireLink)
    (hres : resolveLink elem = none) :
    fire s typed =
      .ok (s, [Action.msgError "No suitable link found for this element."]) ∧
    Active s := by
  refine ⟨?_, hA⟩
  simp [fire, hl, ht, hreq, hres]

/-- Witness for C10: firing "aa" in `yankSession`, whose element has no
`href`. -/
theorem claim_C10_witness :
    fire yankSession ['a', 'a'] =
      .ok (yankSession,
        [Action.msgError "No suitable link found for this element."]) ∧
    Active yankSession :=
  claim_C10 yankSession ['a', 'a'] noHrefElem "yank" (by decide) (by decide)
    (by decide) (by decide) (by decide)

end Hints
